import Mathlib

/-!
Shallow embedding of `awxkee/trapez_integrate` (src/lib.rs): trapezoidal-rule
integration over sampled data, with uniform-spacing detection.

Modelling choices:
* Slices `&[f64]` / `&[f32]` become `List ℚ`; arithmetic is exact rational
  arithmetic, so floating-point rounding is not modelled, while the control
  flow (guards, the uniformity scan and its early exit, branch selection) and
  the exact sequence of accumulated operations are.
* The NaN sentinel returned on invalid input becomes `none : Option ℚ`; a
  computed result becomes `some r`.
* The generic `trapezoid<T: TrapezSample>` is parameterised here by the
  tolerance constant `T::TOLERANCE` (`1e-6` for the `f32` instance, `1e-12`
  for the `f64` instance).
-/

namespace Trapez

/-- `<f32 as TrapezSample>::TOLERANCE = 1e-6` (src/lib.rs lines 41-43). -/
def TrapezTol32 : ℚ := 1 / 10 ^ 6

/-- `<f64 as TrapezSample>::TOLERANCE = 1e-12` (src/lib.rs lines 45-47). -/
def TrapezTol64 : ℚ := 1 / 10 ^ 12

/-- Modelled from the spec: the `mla` module (`use crate::mla::fmla;`,
`mod mla;`) is not among the provided sources.  Per spec §4.1 the FMA
primitive returns `a*b + c` computed with a single final rounding; in the
exact rational embedding this is just `a * b + c`. -/
def fmla (a b c : ℚ) : ℚ := a * b + c

/-- `slice.windows(2)` viewed as the list of adjacent pairs. -/
def pairs : List ℚ → List (ℚ × ℚ)
  | a :: b :: rest => (a, b) :: pairs (b :: rest)
  | _ => []

/-- The uniformity-scan loop of `trapezoid` (src/lib.rs lines 93-101):
walks the adjacent pairs of `&x[1..]` in order and returns `false` as soon
as one interval width deviates from `h0` by more than `tol`, else `true`. -/
def scanUniform (h0 tol : ℚ) : List (ℚ × ℚ) → Bool
  | [] => true
  | (a, b) :: rest =>
      if tol < |b - a - h0| then false else scanUniform h0 tol rest

/-- The complete uniform-spacing check of `trapezoid` (src/lib.rs lines
88-101): `h0 = x[1] - x[0]`, `tol = max(|h0|, 1.0) * TOLERANCE`, then the
scan over the windows of `&x[1..]`. -/
def spacingUniform (tolConst : ℚ) (x : List ℚ) : Bool :=
  let h0 := x.getD 1 0 - x.getD 0 0
  let tol := max |h0| 1 * tolConst
  scanUniform h0 tol (pairs (x.drop 1))

/-- The interior accumulation loop `for v in slice { s += *v }`:
a left fold of addition starting from zero. -/
def interiorFold (l : List ℚ) : ℚ := l.foldl (· + ·) 0

/-- The non-uniform accumulation loop of `trapezoid` (src/lib.rs lines
113-117): over the zipped windows of `y` and `x`,
`integral = fmla(dx * 0.5, y0 + y1, integral)`. -/
def nonUniformFold : List (ℚ × ℚ) → List (ℚ × ℚ) → ℚ → ℚ
  | (y0, y1) :: ys, (x0, x1) :: xs, acc =>
      nonUniformFold ys xs (fmla ((x1 - x0) * (1 / 2)) (y0 + y1) acc)
  | _, _, acc => acc

/-- `fn trapezoid<T: TrapezSample>(y: &[T], x: &[T]) -> T`
(src/lib.rs lines 79-120), with `tolConst` standing for `T::TOLERANCE`. -/
def trapezoid (tolConst : ℚ) (y x : List ℚ) : Option ℚ :=
  let n := y.length
  if n < 2 ∨ x.length ≠ n then
    none
  else if spacingUniform tolConst x then
    let h0 := x.getD 1 0 - x.getD 0 0
    let interior_sum := interiorFold ((y.drop 1).take (n - 2))
    some (h0 * fmla (y.getD 0 0 + y.getD (n - 1) 0) (1 / 2) interior_sum)
  else
    some (nonUniformFold (pairs y) (pairs x) 0)

/-- `pub fn trapezoid_f64(y: &[f64], x: &[f64]) -> f64 { trapezoid(y, x) }`
(src/lib.rs lines 60-62): the generic routine at `T = f64`. -/
def trapezoid_f64 (y x : List ℚ) : Option ℚ := trapezoid TrapezTol64 y x

/-- `pub fn trapezoid_f32(y: &[f64], x: &[f64]) -> f64 { trapezoid(y, x) }`
(src/lib.rs lines 75-77): both parameters are `&[f64]`, so this too is the
generic routine at `T = f64` with the `f64` tolerance. -/
def trapezoid_f32 (y x : List ℚ) : Option ℚ := trapezoid TrapezTol64 y x

/-- `fn trapezoid_even<T: TrapezSample>(y: &[T], dx: T) -> T`
(src/lib.rs lines 139-156). -/
def trapezoid_even (y : List ℚ) (dx : ℚ) : Option ℚ :=
  let n := y.length
  if n < 2 ∨ dx ≤ 0 then
    none
  else
    let sum := interiorFold ((y.drop 1).take (n - 1 - 1))
    some (dx * fmla (1 / 2) (y.getD 0 0 + y.getD (n - 1) 0) sum)

/-- `pub fn trapezoid_even_f32(y: &[f32], dx: f32)` (src/lib.rs lines
125-127): the generic even-spacing routine (at `T = f32`, whose tolerance
constant is unused by `trapezoid_even`). -/
def trapezoid_even_f32 (y : List ℚ) (dx : ℚ) : Option ℚ := trapezoid_even y dx

/-- `pub fn trapezoid_even_f64(y: &[f64], dx: f64)` (src/lib.rs lines
132-134). -/
def trapezoid_even_f64 (y : List ℚ) (dx : ℚ) : Option ℚ := trapezoid_even y dx

/-- Spec-side description of the non-uniform path: the left-to-right fold,
from zero, of `integral = fma(dx * 0.5, y[i] + y[i+1], integral)` over
`i = 0..n-2` with `dx = x[i+1] - x[i]`. -/
def segmentFold (y x : List ℚ) : ℚ :=
  (List.range (y.length - 1)).foldl
    (fun acc i =>
      fmla ((x.getD (i + 1) 0 - x.getD i 0) * (1 / 2))
        (y.getD i 0 + y.getD (i + 1) 0) acc) 0

/-- Spec-side description of the interior sum: the index-order sum of
`y[1..n-2]` (endpoints excluded), i.e. of `y[j+1]` for `j = 0..n-3`. -/
def interiorIdxSum (y : List ℚ) : ℚ :=
  (List.range (y.length - 2)).foldl (fun acc j => acc + y.getD (j + 1) 0) 0

/-- Every index and subslice `trapezoid` uses after its guard:
`x[0]`, `x[1]`, `y[0]`, `y[n-1]`, the interior slice `y[1..n-1]`,
the scan slice `x[1..]`, and the windows of `y` and `x`. -/
def trapezoidAccessesInBounds (y x : List ℚ) : Prop :=
  0 < x.length ∧ 1 < x.length ∧ 0 < y.length ∧
    y.length - 1 < y.length ∧ 1 ≤ y.length - 1 ∧ y.length - 1 ≤ y.length ∧
    1 ≤ x.length

/-- Every index and subslice `trapezoid_even` uses after its guard:
`y[0]`, `y[n-1]` and the interior slice `y[1..n-1]`. -/
def trapezoidEvenAccessesInBounds (y : List ℚ) : Prop :=
  0 < y.length ∧ y.length - 1 < y.length ∧
    1 ≤ y.length - 1 ∧ y.length - 1 ≤ y.length

/-! ### List-level lemmas -/

lemma scanUniform_append (h0 tol : ℚ) (l l' : List (ℚ × ℚ))
    (h : scanUniform h0 tol l = false) :
    scanUniform h0 tol (l ++ l') = false := by
  induction l with
  | nil => simp [scanUniform] at h
  | cons p rest ih =>
      obtain ⟨a, b⟩ := p
      by_cases hc : tol < |b - a - h0|
      · simp [scanUniform, hc]
      · simp only [scanUniform, hc, if_false, List.cons_append] at h ⊢
        exact ih h

lemma scanUniform_pairs_iff (h0 tol : ℚ) :
    ∀ l : List ℚ, (scanUniform h0 tol (pairs l) = false ↔
      ∃ j, j + 1 < l.length ∧ tol < |l.getD (j + 1) 0 - l.getD j 0 - h0|)
  | [] => by simp [pairs, scanUniform]
  | [a] => by
      simp only [pairs, scanUniform, List.length_singleton]
      constructor
      · intro h; exact absurd h (by simp)
      · rintro ⟨j, hj, -⟩; omega
  | a :: b :: rest => by
      have ih := scanUniform_pairs_iff h0 tol (b :: rest)
      by_cases hc : tol < |b - a - h0|
      · simp only [pairs, scanUniform, hc, if_true, List.length_cons]
        constructor
        · intro _
          refine ⟨0, by omega, ?_⟩
          simpa using hc
        · intro _; trivial
      · simp only [pairs, scanUniform, hc, if_false, List.length_cons]
        rw [ih]
        constructor
        · rintro ⟨j, hj, hv⟩
          refine ⟨j + 1, by simpa using hj, ?_⟩
          simpa using hv
        · rintro ⟨j, hj, hv⟩
          cases j with
          | zero => exact absurd (by simpa using hv) hc
          | succ j =>
              refine ⟨j, by simpa using hj, ?_⟩
              simpa using hv

lemma getD_drop_one (x : List ℚ) (j : ℕ) :
    (x.drop 1).getD j 0 = x.getD (j + 1) 0 := by
  cases x with
  | nil => simp
  | cons a t => simp

lemma getD_take_of_lt (l : List ℚ) (k j : ℕ) (h : j < k) :
    (l.take k).getD j 0 = l.getD j 0 := by
  induction l generalizing k j with
  | nil => simp
  | cons a t ih =>
      cases k with
      | zero => omega
      | succ k =>
          cases j with
          | zero => simp
          | succ j =>
              simp only [List.take_succ_cons, List.getD_cons_succ]
              exact ih k j (by omega)

lemma foldl_add_eq_range (l : List ℚ) :
    ∀ a : ℚ, l.foldl (· + ·) a =
      (List.range l.length).foldl (fun acc j => acc + l.getD j 0) a := by
  induction l with
  | nil => simp
  | cons b t ih =>
      intro a
      simp only [List.foldl_cons, List.length_cons, List.range_succ_eq_map,
        List.foldl_map, List.getD_cons_zero, List.getD_cons_succ]
      exact ih (a + b)

lemma interiorFold_eq_idxSum (y : List ℚ) (h : 2 ≤ y.length) :
    interiorFold ((y.drop 1).take (y.length - 2)) = interiorIdxSum y := by
  unfold interiorFold interiorIdxSum
  rw [foldl_add_eq_range]
  have hlen : ((y.drop 1).take (y.length - 2)).length = y.length - 2 := by
    simp only [List.length_take, List.length_drop]
    omega
  rw [hlen]
  refine List.foldl_ext _ _ _ ?_
  intro a j hj
  rw [List.mem_range] at hj
  rw [getD_take_of_lt _ _ _ hj, getD_drop_one]

lemma nonUniformFold_pairs :
    ∀ (y x : List ℚ), x.length = y.length → ∀ acc : ℚ,
      nonUniformFold (pairs y) (pairs x) acc =
        (List.range (y.length - 1)).foldl
          (fun a i =>
            fmla ((x.getD (i + 1) 0 - x.getD i 0) * (1 / 2))
              (y.getD i 0 + y.getD (i + 1) 0) a) acc
  | [], x, h, acc => by
      simp [pairs, nonUniformFold]
  | [y0], x, h, acc => by
      simp [pairs, nonUniformFold]
  | y0 :: y1 :: ys, x, h, acc => by
      match x, h with
      | x0 :: x1 :: xs, h =>
        have h' : (x1 :: xs).length = (y1 :: ys).length := by
          simpa using h
        simp only [pairs, nonUniformFold]
        rw [nonUniformFold_pairs (y1 :: ys) (x1 :: xs) h']
        simp only [List.length_cons, Nat.succ_sub_one, List.range_succ_eq_map,
          List.foldl_cons, List.foldl_map, List.getD_cons_zero, List.getD_cons_succ]

/-! ### Branch-unfolding lemmas for `trapezoid` and `trapezoid_even` -/

lemma spacingUniform_eq (tolConst : ℚ) (x : List ℚ) :
    spacingUniform tolConst x =
      scanUniform (x.getD 1 0 - x.getD 0 0)
        (max |x.getD 1 0 - x.getD 0 0| 1 * tolConst) (pairs (x.drop 1)) := rfl

lemma trapezoid_of_guard (tolConst : ℚ) (y x : List ℚ)
    (h : y.length < 2 ∨ x.length ≠ y.length) :
    trapezoid tolConst y x = none := by
  simp only [trapezoid]
  rw [if_pos h]

lemma trapezoid_of_uniform (tolConst : ℚ) (y x : List ℚ)
    (hg : ¬(y.length < 2 ∨ x.length ≠ y.length))
    (hu : spacingUniform tolConst x = true) :
    trapezoid tolConst y x =
      some ((x.getD 1 0 - x.getD 0 0) *
        fmla (y.getD 0 0 + y.getD (y.length - 1) 0) (1 / 2)
          (interiorFold ((y.drop 1).take (y.length - 2)))) := by
  simp only [trapezoid]
  rw [if_neg hg, if_pos hu]

lemma trapezoid_of_nonuniform (tolConst : ℚ) (y x : List ℚ)
    (hg : ¬(y.length < 2 ∨ x.length ≠ y.length))
    (hu : spacingUniform tolConst x = false) :
    trapezoid tolConst y x = some (nonUniformFold (pairs y) (pairs x) 0) := by
  simp only [trapezoid]
  rw [if_neg hg, if_neg (by simp [hu])]

lemma trapezoid_even_of_valid (y : List ℚ) (dx : ℚ)
    (hn : 2 ≤ y.length) (hdx : 0 < dx) :
    trapezoid_even y dx =
      some (dx * fmla (1 / 2) (y.getD 0 0 + y.getD (y.length - 1) 0)
        (interiorIdxSum y)) := by
  simp only [trapezoid_even]
  rw [if_neg (by push_neg; exact ⟨by omega, hdx⟩)]
  have h2 : y.length - 1 - 1 = y.length - 2 := by omega
  rw [h2, interiorFold_eq_idxSum y hn]

/-! ### Claim theorems -/

/-- C1: with equal-length slices and `n = len(y) ≥ 2`, `trapezoid` takes the
non-uniform path iff some interval width `h_i = x[i+1] - x[i]`, `1 ≤ i`,
`i + 1 < n`, deviates from `h0 = x[1] - x[0]` by more than
`tol = max(|h0|, 1) * TOLERANCE`; and the scan is short-circuiting: once a
prefix of the window list yields `false`, any continuation still yields
`false`, so the first violating interval decides the outcome. -/
theorem trapezoid_nonuniform_path_iff (tolConst : ℚ) (y x : List ℚ)
    (hx : x.length = y.length) (hn : 2 ≤ y.length) :
    ((spacingUniform tolConst x = false) ↔
      ∃ i, 1 ≤ i ∧ i + 1 < y.length ∧
        max |x.getD 1 0 - x.getD 0 0| 1 * tolConst <
          |x.getD (i + 1) 0 - x.getD i 0 - (x.getD 1 0 - x.getD 0 0)|) ∧
    ∀ (h0 tol : ℚ) (l l' : List (ℚ × ℚ)),
      scanUniform h0 tol l = false → scanUniform h0 tol (l ++ l') = false := by
  constructor
  · rw [spacingUniform_eq, scanUniform_pairs_iff]
    constructor
    · rintro ⟨j, hj, hv⟩
      rw [List.length_drop] at hj
      rw [getD_drop_one, getD_drop_one] at hv
      exact ⟨j + 1, by omega, by omega, hv⟩
    · rintro ⟨i, h1, hi, hv⟩
      refine ⟨i - 1, ?_, ?_⟩
      · rw [List.length_drop]
        omega
      · rw [getD_drop_one, getD_drop_one]
        have hi1 : i - 1 + 1 = i := by omega
        rw [hi1]
        exact hv
  · exact fun h0 tol l l' h => scanUniform_append h0 tol l l' h

/-- Witness for C1 at `y = [0,0,0]`, `x = [0,1,3]`, the `f64` tolerance:
the second width is `2`, `h0 = 1`, and `|2 - 1| > max(1,1)*1e-12`, so the
non-uniform path is taken. -/
theorem trapezoid_nonuniform_path_iff_witness :
    (([0, 1, 3] : List ℚ).length = ([0, 0, 0] : List ℚ).length ∧
      2 ≤ ([0, 0, 0] : List ℚ).length) ∧
    (((spacingUniform TrapezTol64 [0, 1, 3] = false) ↔
      ∃ i, 1 ≤ i ∧ i + 1 < ([0, 0, 0] : List ℚ).length ∧
        max |([0, 1, 3] : List ℚ).getD 1 0 - ([0, 1, 3] : List ℚ).getD 0 0| 1 *
            TrapezTol64 <
          |([0, 1, 3] : List ℚ).getD (i + 1) 0 - ([0, 1, 3] : List ℚ).getD i 0 -
            (([0, 1, 3] : List ℚ).getD 1 0 - ([0, 1, 3] : List ℚ).getD 0 0)|) ∧
    ∀ (h0 tol : ℚ) (l l' : List (ℚ × ℚ)),
      scanUniform h0 tol l = false → scanUniform h0 tol (l ++ l') = false) :=
  ⟨⟨rfl, by decide⟩,
    trapezoid_nonuniform_path_iff TrapezTol64 [0, 0, 0] [0, 1, 3] rfl (by decide)⟩

/-- C2: on the non-uniform path, `trapezoid` returns the left-to-right fold,
from zero, of `integral = fma(dx * 0.5, y[i] + y[i+1], integral)` over
`i = 0..n-2`, with `dx = x[i+1] - x[i]`, one `fma` per segment in index
order. -/
theorem trapezoid_nonuniform_result (tolConst : ℚ) (y x : List ℚ)
    (hx : x.length = y.length) (hn : 2 ≤ y.length)
    (hu : spacingUniform tolConst x = false) :
    trapezoid tolConst y x = some (segmentFold y x) := by
  rw [trapezoid_of_nonuniform tolConst y x (by omega) hu,
    nonUniformFold_pairs y x hx 0]
  rfl

/-- Witness for C2 at `y = [5, 6, 1]`, `x = [0, 1, 3]`, the `f64`
tolerance. -/
theorem trapezoid_nonuniform_result_witness :
    (([0, 1, 3] : List ℚ).length = ([5, 6, 1] : List ℚ).length ∧
      2 ≤ ([5, 6, 1] : List ℚ).length ∧
      spacingUniform TrapezTol64 [0, 1, 3] = false) ∧
    trapezoid TrapezTol64 [5, 6, 1] [0, 1, 3] =
      some (segmentFold [5, 6, 1] [0, 1, 3]) :=
  ⟨⟨rfl, by decide, by
    norm_num [spacingUniform, scanUniform, pairs, TrapezTol64]⟩,
    trapezoid_nonuniform_result TrapezTol64 [5, 6, 1] [0, 1, 3] rfl (by decide)
      (by norm_num [spacingUniform, scanUniform, pairs, TrapezTol64])⟩

/-- C3: on the uniform path, `trapezoid` returns
`h0 * fma(y[0] + y[n-1], 0.5, interior_sum)` with `interior_sum` the
index-order sum of `y[1..n-2]`; and `trapezoid_even` with `n ≥ 2`, `dx > 0`
returns `dx * fma(0.5, y[0] + y[n-1], sum)` with the same index-order
interior sum. -/
theorem trapezoid_uniform_result (tolConst dx : ℚ) (y x : List ℚ)
    (hx : x.length = y.length) (hn : 2 ≤ y.length) :
    (spacingUniform tolConst x = true →
      trapezoid tolConst y x =
        some ((x.getD 1 0 - x.getD 0 0) *
          fmla (y.getD 0 0 + y.getD (y.length - 1) 0) (1 / 2)
            (interiorIdxSum y))) ∧
    (0 < dx →
      trapezoid_even y dx =
        some (dx * fmla (1 / 2) (y.getD 0 0 + y.getD (y.length - 1) 0)
          (interiorIdxSum y))) := by
  constructor
  · intro hu
    rw [trapezoid_of_uniform tolConst y x (by omega) hu,
      interiorFold_eq_idxSum y hn]
  · intro hdx
    exact trapezoid_even_of_valid y dx hn hdx

/-- Witness for C3 at `y = [1, 2, 4]`, `x = [0, 1, 2]`, `dx = 1`, the `f64`
tolerance. -/
theorem trapezoid_uniform_result_witness :
    (([0, 1, 2] : List ℚ).length = ([1, 2, 4] : List ℚ).length ∧
      2 ≤ ([1, 2, 4] : List ℚ).length ∧
      spacingUniform TrapezTol64 [0, 1, 2] = true ∧ (0 : ℚ) < 1) ∧
    ((spacingUniform TrapezTol64 [0, 1, 2] = true →
      trapezoid TrapezTol64 [1, 2, 4] [0, 1, 2] =
        some ((([0, 1, 2] : List ℚ).getD 1 0 - ([0, 1, 2] : List ℚ).getD 0 0) *
          fmla (([1, 2, 4] : List ℚ).getD 0 0 +
              ([1, 2, 4] : List ℚ).getD (([1, 2, 4] : List ℚ).length - 1) 0)
            (1 / 2) (interiorIdxSum [1, 2, 4]))) ∧
    ((0 : ℚ) < 1 →
      trapezoid_even [1, 2, 4] 1 =
        some (1 * fmla (1 / 2)
          (([1, 2, 4] : List ℚ).getD 0 0 +
            ([1, 2, 4] : List ℚ).getD (([1, 2, 4] : List ℚ).length - 1) 0)
          (interiorIdxSum [1, 2, 4])))) :=
  ⟨⟨rfl, by decide, by norm_num [spacingUniform, scanUniform, pairs, TrapezTol64],
      by norm_num⟩,
    trapezoid_uniform_result TrapezTol64 1 [1, 2, 4] [0, 1, 2] rfl (by decide)⟩

lemma trapezoid_eq_even_of_exact_spacing (tolConst dx : ℚ) (y x : List ℚ)
    (hx : x.length = y.length) (hn : 2 ≤ y.length) (htol : 0 < tolConst)
    (hpos : 0 < dx)
    (heven : ∀ i, i + 1 < x.length → x.getD (i + 1) 0 - x.getD i 0 = dx) :
    trapezoid tolConst y x = trapezoid_even y dx := by
  have h0eq : x.getD 1 0 - x.getD 0 0 = dx := heven 0 (by omega)
  have hu : spacingUniform tolConst x = true := by
    rw [spacingUniform_eq]
    cases hb : scanUniform (x.getD 1 0 - x.getD 0 0)
        (max |x.getD 1 0 - x.getD 0 0| 1 * tolConst) (pairs (x.drop 1)) with
    | false =>
        exfalso
        obtain ⟨j, hj, hv⟩ := (scanUniform_pairs_iff _ _ _).mp hb
        rw [List.length_drop] at hj
        rw [getD_drop_one, getD_drop_one,
          heven (j + 1) (by omega), h0eq] at hv
        simp only [sub_self, abs_zero] at hv
        have hpostol : 0 < max |dx| 1 * tolConst :=
          mul_pos (lt_of_lt_of_le one_pos (le_max_right _ _)) htol
        exact absurd hv (not_lt.mpr hpostol.le)
    | true => rfl
  rw [trapezoid_of_uniform tolConst y x (by omega) hu,
    trapezoid_even_of_valid y dx hn hpos, h0eq, interiorFold_eq_idxSum y hn]
  congr 1
  unfold fmla
  ring

/-- C4: when every computed interval width `x[i+1] - x[i]` equals
`dx = x[1] - x[0] > 0` exactly, the uniformity scan succeeds (the tolerance
is strictly positive while every deviation is zero), so `trapezoid_f64`
returns the same value as `trapezoid_even_f64` at the same `dx`; and the
same holds for the 32-bit instantiation (tolerance `1e-6`) against
`trapezoid_even_f32`. -/
theorem trapezoid_f64_agrees_with_even (dx : ℚ) (y x : List ℚ)
    (hx : x.length = y.length) (hn : 2 ≤ y.length) (hpos : 0 < dx)
    (heven : ∀ i, i + 1 < x.length → x.getD (i + 1) 0 - x.getD i 0 = dx) :
    trapezoid_f64 y x = trapezoid_even_f64 y dx ∧
    trapezoid TrapezTol32 y x = trapezoid_even_f32 y dx :=
  ⟨trapezoid_eq_even_of_exact_spacing TrapezTol64 dx y x hx hn
      (by norm_num [TrapezTol64]) hpos heven,
    trapezoid_eq_even_of_exact_spacing TrapezTol32 dx y x hx hn
      (by norm_num [TrapezTol32]) hpos heven⟩

/-- Witness for C4 at `y = [1, 2, 3]`, `x = [0, 1, 2]`, `dx = 1`. -/
theorem trapezoid_f64_agrees_with_even_witness :
    (([0, 1, 2] : List ℚ).length = ([1, 2, 3] : List ℚ).length ∧
      2 ≤ ([1, 2, 3] : List ℚ).length ∧ (0 : ℚ) < 1 ∧
      ∀ i, i + 1 < ([0, 1, 2] : List ℚ).length →
        ([0, 1, 2] : List ℚ).getD (i + 1) 0 - ([0, 1, 2] : List ℚ).getD i 0 = 1) ∧
    (trapezoid_f64 [1, 2, 3] [0, 1, 2] = trapezoid_even_f64 [1, 2, 3] 1 ∧
      trapezoid TrapezTol32 [1, 2, 3] [0, 1, 2] = trapezoid_even_f32 [1, 2, 3] 1) :=
  ⟨⟨rfl, by decide, by norm_num, by
      intro i hi
      have hi3 : i + 1 < 3 := hi
      have h2 : i < 2 := by omega
      interval_cases i <;> norm_num⟩,
    trapezoid_f64_agrees_with_even 1 [1, 2, 3] [0, 1, 2] rfl (by decide)
      (by norm_num)
      (by
        intro i hi
        have hi3 : i + 1 < 3 := hi
        have h2 : i < 2 := by omega
        interval_cases i <;> norm_num)⟩

/-- C5: when `len(y) < 2` or the lengths differ, both `trapezoid_f64` and
`trapezoid_f32` return the NaN sentinel (modelled `none`); the guard is the
only effect, and the functions are total. -/
theorem trapezoid_invalid_returns_nan (y x : List ℚ)
    (h : y.length < 2 ∨ x.length ≠ y.length) :
    trapezoid_f64 y x = none ∧ trapezoid_f32 y x = none :=
  ⟨trapezoid_of_guard TrapezTol64 y x h, trapezoid_of_guard TrapezTol64 y x h⟩

/-- Witness for C5 at `y = [1]`, `x = []`. -/
theorem trapezoid_invalid_returns_nan_witness :
    (([1] : List ℚ).length < 2 ∨ ([] : List ℚ).length ≠ ([1] : List ℚ).length) ∧
    (trapezoid_f64 [1] [] = none ∧ trapezoid_f32 [1] [] = none) :=
  ⟨Or.inl (by decide), trapezoid_invalid_returns_nan [1] [] (Or.inl (by decide))⟩

/-- C6: when `len(y) < 2` or `dx ≤ 0`, both `trapezoid_even_f32` and
`trapezoid_even_f64` return the NaN sentinel (modelled `none`). -/
theorem trapezoid_even_invalid_returns_nan (y : List ℚ) (dx : ℚ)
    (h : y.length < 2 ∨ dx ≤ 0) :
    trapezoid_even_f32 y dx = none ∧ trapezoid_even_f64 y dx = none := by
  have hnone : trapezoid_even y dx = none := by
    simp only [trapezoid_even]
    rw [if_pos h]
  exact ⟨hnone, hnone⟩

/-- Witness for C6 at `y = []`, `dx = 1`. -/
theorem trapezoid_even_invalid_returns_nan_witness :
    (([] : List ℚ).length < 2 ∨ (1 : ℚ) ≤ 0) ∧
    (trapezoid_even_f32 [] 1 = none ∧ trapezoid_even_f64 [] 1 = none) :=
  ⟨Or.inl (by decide),
    trapezoid_even_invalid_returns_nan [] 1 (Or.inl (by decide))⟩

/-- C7: `trapezoid_f32` and `trapezoid_f64` are the same function: both take
64-bit slices and are the generic `trapezoid` instantiated at `f64` (the
`1e-12` tolerance), so the results agree on every input; no 32-bit
narrowing occurs in the `trapezoid_f32` path. -/
theorem trapezoid_f32_is_trapezoid_f64 :
    (∀ y x : List ℚ, trapezoid_f32 y x = trapezoid_f64 y x) ∧
    (∀ y x : List ℚ, trapezoid_f32 y x = trapezoid TrapezTol64 y x) :=
  ⟨fun _ _ => rfl, fun _ _ => rfl⟩

/-- C8: the test case of the repository:
`trapezoid_f64([5,6,1,4,6,2], [1,2,4,6,7,9]) = 30.5 = 61/2` (the spacing is
non-uniform, and every intermediate value is computed exactly). -/
theorem trapezoid_f64_concrete_case :
    trapezoid_f64 [5, 6, 1, 4, 6, 2] [1, 2, 4, 6, 7, 9] = some (61 / 2) := by
  norm_num [trapezoid_f64, trapezoid, spacingUniform, scanUniform, pairs,
    nonUniformFold, fmla, TrapezTol64, interiorFold]

/-- C9: once the guards pass (`n ≥ 2`, equal lengths), every index and
subslice taken by `trapezoid` and `trapezoid_even` is in bounds, and both
functions return a value (`isSome`) on every such input — `trapezoid` on
either branch, `trapezoid_even` whenever additionally `dx > 0`. -/
theorem trapezoid_accesses_total (y x : List ℚ)
    (hx : x.length = y.length) (hn : 2 ≤ y.length) :
    trapezoidAccessesInBounds y x ∧ trapezoidEvenAccessesInBounds y ∧
    (∀ tolConst : ℚ, (trapezoid tolConst y x).isSome = true) ∧
    (∀ dx : ℚ, 0 < dx → (trapezoid_even y dx).isSome = true) := by
  refine ⟨⟨by omega, by omega, by omega, by omega, by omega, by omega, by omega⟩,
    ⟨by omega, by omega, by omega, by omega⟩, ?_, ?_⟩
  · intro tolConst
    cases hu : spacingUniform tolConst x with
    | false => rw [trapezoid_of_nonuniform tolConst y x (by omega) hu]; rfl
    | true => rw [trapezoid_of_uniform tolConst y x (by omega) hu]; rfl
  · intro dx hdx
    rw [trapezoid_even_of_valid y dx hn hdx]
    rfl

/-- Witness for C9 at `y = [1, 2]`, `x = [3, 4]`. -/
theorem trapezoid_accesses_total_witness :
    (([3, 4] : List ℚ).length = ([1, 2] : List ℚ).length ∧
      2 ≤ ([1, 2] : List ℚ).length) ∧
    (trapezoidAccessesInBounds [1, 2] [3, 4] ∧
      trapezoidEvenAccessesInBounds [1, 2] ∧
      (∀ tolConst : ℚ, (trapezoid tolConst [1, 2] [3, 4]).isSome = true) ∧
      (∀ dx : ℚ, 0 < dx → (trapezoid_even [1, 2] dx).isSome = true)) :=
  ⟨⟨rfl, by decide⟩, trapezoid_accesses_total [1, 2] [3, 4] rfl (by decide)⟩

/-- C10: with exactly two samples the scan has nothing to check, the uniform
path is always taken, and `trapezoid` returns
`(x[1] - x[0]) * fma(y[0] + y[1], 0.5, 0)` — never the NaN sentinel,
whatever the sign of the spacing. -/
theorem trapezoid_two_points (tolConst : ℚ) (y x : List ℚ)
    (hy : y.length = 2) (hx : x.length = 2) :
    spacingUniform tolConst x = true ∧
    trapezoid tolConst y x =
      some ((x.getD 1 0 - x.getD 0 0) *
        fmla (y.getD 0 0 + y.getD 1 0) (1 / 2) 0) := by
  obtain ⟨y0, y1, rfl⟩ := List.length_eq_two.mp hy
  obtain ⟨x0, x1, rfl⟩ := List.length_eq_two.mp hx
  exact ⟨rfl, rfl⟩

/-- Witness for C10 at `y = [1, 2]`, `x = [5, 0]` — a decreasing abscissa
pair, still no NaN. -/
theorem trapezoid_two_points_witness :
    (([1, 2] : List ℚ).length = 2 ∧ ([5, 0] : List ℚ).length = 2) ∧
    (spacingUniform TrapezTol64 [5, 0] = true ∧
      trapezoid TrapezTol64 [1, 2] [5, 0] =
        some ((([5, 0] : List ℚ).getD 1 0 - ([5, 0] : List ℚ).getD 0 0) *
          fmla (([1, 2] : List ℚ).getD 0 0 + ([1, 2] : List ℚ).getD 1 0)
            (1 / 2) 0)) :=
  ⟨⟨rfl, rfl⟩, trapezoid_two_points TrapezTol64 [1, 2] [5, 0] rfl rfl⟩

end Trapez
